import Mathlib

/-!
# Citrea full node — shallow embedding and verification

This file embeds the core of the Citrea full node into Lean 4:

* the DA↔L2 synchronization pipeline of the full node
  (`crates/fullnode/src/da_block_handler.rs`): sequencer-commitment
  verification, zk-proof verification, and the L1 block processing loop;
* the runner's L2 soft-confirmation application
  (`crates/fullnode/src/runner.rs`);
* the EVM begin-hook (`crates/evm/src/hooks.rs`): system-event injection and
  the last-256 block-hash ring;
* the L1-fee accounting model (the `crate::handler` executor is not among the
  sources; it is modelled from the spec and pinned by the repository's own
  tests in `crates/evm/src/tests/call_tests.rs`).

Opaque 32-byte values (hashes, public keys, code commitments, serialized
proofs) are modelled as natural numbers with decidable equality; byte vectors
(state roots) likewise.  The SHA-256 leaf-combination function of the
`rs_merkle` Merkle tree is an explicit parameter `hp` of the development: no
claim depends on the internals of SHA-256, only on the tree shape and on
root equality.
-/

namespace Citrea

/-- Opaque 32-byte value (block hash, merkle root, tx commitment, ...). -/
abbrev Hash := Nat

/-- Opaque rollup state root (`StateRoot: AsRef<[u8]>` in the source). -/
abbrev StateRoot := Nat

/-- Opaque public key (`Vec<u8>` in the source). -/
abbrev PubKey := Nat

/-- Opaque serialized zk proof (`type Proof = Vec<u8>`). -/
abbrev Proof := Nat

/-- Opaque zkVM code commitment (`Vm::CodeCommitment`). -/
abbrev CodeCommitment := Nat

/-- Protocol fork identifiers (`sov_rollup_interface::spec::SpecId`). -/
inductive SpecId where
  | Genesis
  | Fork1
  | Fork2
deriving Repr, DecidableEq

/-- Numeric rank of a fork, for activation comparisons. -/
def SpecId.rank : SpecId → Nat
  | .Genesis => 0
  | .Fork1 => 1
  | .Fork2 => 2

/-- Fork ordering: `a.atLeast b` means fork `a` is `b` or later. -/
def SpecId.atLeast (a b : SpecId) : Bool := b.rank ≤ a.rank

/-- Soft-confirmation status lattice
(`sov_rollup_interface::rpc::SoftConfirmationStatus`, used by the handler). -/
inductive SoftConfirmationStatus where
  | Trusted
  | Finalized
  | Proven
deriving Repr, DecidableEq

/-- A stored soft confirmation, restricted to the fields the DA block handler
reads (`StoredSoftConfirmation.hash`, the 32-byte merkle leaf). -/
structure StoredSoftConfirmation where
  hash : Hash
deriving Repr, DecidableEq

/-- A sequencer commitment as read from DA
(`sov_rollup_interface::da::SequencerCommitment`). -/
structure SequencerCommitment where
  merkle_root : Hash
  l2_start_block_number : Nat
  l2_end_block_number : Nat
deriving Repr, DecidableEq

/-- Errors of `citrea_common::error::SyncError`, as matched by the handler:
a defer-the-block `MissingL2` variant and a skip-this-item `Error` variant. -/
inductive SyncError where
  | MissingL2 (msg : String) (startHeight endHeight : Nat)
  | Error (msg : String)
deriving Repr, DecidableEq

/-! ## rs_merkle: `MerkleTree::<Sha256>::from_leaves(..).root()`

`rs_merkle` hashes adjacent pairs and promotes a lone rightmost node
unchanged to the next level; the root of an empty tree is `None`.
The pair-combination function (SHA-256 of the concatenation) is the
parameter `hp`. -/

/-- One level of the rs_merkle tree: combine adjacent pairs, promote a lone
rightmost node unchanged. -/
def merkleLevel (hp : Hash → Hash → Hash) : List Hash → List Hash
  | [] => []
  | [x] => [x]
  | x :: y :: rest => hp x y :: merkleLevel hp rest

/-- Iterate `merkleLevel` until a single node remains.  The `fuel`
argument is a structural-termination bound: each level strictly shrinks a
list of length at least two, so `fuel = length` never runs out (the `0`
branch is unreachable); structural recursion keeps the function
definitionally computable. -/
def merkleRootGo (hp : Hash → Hash → Hash) : Nat → List Hash → Option Hash
  | _, [] => none
  | _, [x] => some x
  | 0, _ :: _ :: _ => none
  | fuel + 1, x :: y :: rest => merkleRootGo hp fuel (merkleLevel hp (x :: y :: rest))

/-- Root of the rs_merkle tree over the given leaves (in order);
`none` for an empty leaf list. -/
def merkleRoot (hp : Hash → Hash → Hash) (l : List Hash) : Option Hash :=
  merkleRootGo hp l.length l

/-! ## The ledger database

The ledger columns touched by the full node, as a record of total maps
(`sov_db::ledger_db`, accessed through the `NodeLedgerOps` trait).  The
handler's database writes are total in this model (the spec treats a failed
ledger write as fatal, not as a recoverable error). -/

/-- The full-node view of the ledger database. -/
structure Ledger where
  soft_confirmations : Nat → Option StoredSoftConfirmation
  l2_state_roots : Nat → Option StateRoot
  l1_height_of_l1_hash : Hash → Option Nat
  commitments_on_slot : Nat → Option (List SequencerCommitment)
  soft_confirmation_status : Nat → Option SoftConfirmationStatus
  last_commitment_l2_height : Option Nat
  last_scanned_l1_height : Option Nat
  verified_proofs : Nat → List Proof

/-- The empty ledger (fresh database). -/
def Ledger.empty : Ledger where
  soft_confirmations := fun _ => none
  l2_state_roots := fun _ => none
  l1_height_of_l1_hash := fun _ => none
  commitments_on_slot := fun _ => none
  soft_confirmation_status := fun _ => none
  last_commitment_l2_height := none
  last_scanned_l1_height := none
  verified_proofs := fun _ => []

/-- Ledger read `get_soft_confirmation_range(start..=end)`: the stored soft confirmations
with numbers in the inclusive range, in height order; heights missing from
the database are absent from the result ("the result will be smaller than
the requested range"). -/
def get_soft_confirmation_range (db : Ledger) (s e : Nat) :
    List StoredSoftConfirmation :=
  (List.range' s (e + 1 - s)).filterMap db.soft_confirmations

/-- Ledger write `put_soft_confirmation_status(height, status)`. -/
def put_soft_confirmation_status (db : Ledger) (h : Nat)
    (st : SoftConfirmationStatus) : Ledger :=
  { db with soft_confirmation_status :=
      fun k => if k = h then some st else db.soft_confirmation_status k }

/-- Write a status for every height in the list, in order. -/
def put_status_list (db : Ledger) (l : List Nat)
    (st : SoftConfirmationStatus) : Ledger :=
  l.foldl (fun d k => put_soft_confirmation_status d k st) db

/-- Write a status for every height in the inclusive range `[s, e]`
(the handler's `for i in start..=end` loop). -/
def put_status_range (db : Ledger) (s e : Nat)
    (st : SoftConfirmationStatus) : Ledger :=
  put_status_list db (List.range' s (e + 1 - s)) st

/-- Ledger write `update_commitments_on_da_slot(height, commitment)`: append the new
commitment to the list stored for the L1 height (trait doc: "Gets the
commitments in the da slot with given height if any; adds the new coming
commitment info"). -/
def update_commitments_on_da_slot (db : Ledger) (h : Nat)
    (sc : SequencerCommitment) : Ledger :=
  { db with commitments_on_slot :=
      fun k => if k = h then some ((db.commitments_on_slot h).getD [] ++ [sc])
               else db.commitments_on_slot k }

/-- Ledger write `set_l1_height_of_l1_hash(hash, height)`. -/
def set_l1_height_of_l1_hash (db : Ledger) (hsh : Hash) (height : Nat) :
    Ledger :=
  { db with l1_height_of_l1_hash :=
      fun k => if k = hsh then some height else db.l1_height_of_l1_hash k }

/-- Ledger write `set_last_scanned_l1_height(height)`. -/
def set_last_scanned_l1_height (db : Ledger) (height : Nat) : Ledger :=
  { db with last_scanned_l1_height := some height }

/-- Ledger write `update_verified_proof_data(l1_height, proof, output)`: the proof is
persisted under the height of the L1 block it was found in. -/
def update_verified_proof_data (db : Ledger) (h : Nat) (p : Proof) : Ledger :=
  { db with verified_proofs :=
      fun k => if k = h then db.verified_proofs h ++ [p]
               else db.verified_proofs k }

/-! ## `process_sequencer_commitment`
(`crates/fullnode/src/da_block_handler.rs:221-290`)

All ledger writes in the source occur after the two checks (the stored-range
length gate and the merkle-root comparison), so an error return carries no
ledger: the `Except` shape is the literal control flow of the source. -/

/-- The ledger writes of a successful `process_sequencer_commitment`
(`da_block_handler.rs:275-287`): record the commitment on the L1 slot, mark
every height of the range `Finalized`, and update the last commitment L2
height. -/
def commitmentWrites (db : Ledger) (l1Height : Nat)
    (sc : SequencerCommitment) : Ledger :=
  let db1 := update_commitments_on_da_slot db l1Height sc
  let db2 := put_status_range db1 sc.l2_start_block_number
    sc.l2_end_block_number .Finalized
  { db2 with last_commitment_l2_height := some sc.l2_end_block_number }

/-- The handler's `process_sequencer_commitment`: verify a sequencer commitment against the
locally stored soft confirmations and on success mark its range `Finalized`.
`l1Height` is the height of the L1 block the commitment was extracted from.

Note the availability gate is the code's
`stored_soft_confirmations.len() < ((end - start) as usize)` — the length is
compared against `end - start`, not against the range length
`end - start + 1`. -/
def process_sequencer_commitment (hp : Hash → Hash → Hash) (db : Ledger)
    (l1Height : Nat) (sc : SequencerCommitment) : Except SyncError Ledger :=
  let s := sc.l2_start_block_number
  let e := sc.l2_end_block_number
  let stored := get_soft_confirmation_range db s e
  if stored.length < e - s then
    .error (.MissingL2 "L2 range not synced yet" s e)
  else
    match merkleRoot hp (stored.map (·.hash)) with
    | none => .error (.Error "Could not calculate soft confirmation tree root")
    | some root =>
      if root ≠ sc.merkle_root then
        .error (.Error "Merkle root mismatch")
      else
        .ok (commitmentWrites db l1Height sc)

/-! ## `process_zk_proof`
(`crates/fullnode/src/da_block_handler.rs:292-426`)

The handler calls `Vm::extract_output(..).expect("Proof should be
deserializable")` and `code_commitments_by_spec.get(..).expect("Proof public
input must contain valid spec id")`, and indexes
`filtered_commitments[range.0]`: each of these aborts the process on failure.
A Rust panic is modelled by the `Outcome.panic` constructor. -/

/-- Result of a fallible computation that may also abort the process
(a Rust panic from `expect`/out-of-bounds indexing). -/
inductive Outcome (α : Type) where
  | ok (a : α)
  | panic (msg : String)
deriving Repr

/-- Whether the outcome is a process abort. -/
def Outcome.isPanic : Outcome α → Bool
  | .panic _ => true
  | .ok _ => false

/-- The public output of a batch proof
(`sov_rollup_interface::zk::BatchProofCircuitOutput`), restricted to the
fields the handler reads.  `state_diff` is carried opaquely. -/
structure BatchProofCircuitOutput where
  initial_state_root : StateRoot
  final_state_root : StateRoot
  prev_soft_confirmation_hash : Hash
  final_soft_confirmation_hash : Hash
  state_diff : Nat
  da_slot_hash : Hash
  sequencer_commitments_range : Nat × Nat
  sequencer_public_key : PubKey
  sequencer_da_public_key : PubKey
  last_l2_height : Nat
  preproven_commitments : List Nat
deriving Repr, DecidableEq

/-- Lexicographic comparison of sequencer commitments in Rust field order
(`merkle_root`, `l2_start_block_number`, `l2_end_block_number`).  Modelled
from the spec: the spec says the commitments on the slot are sorted; the
derived `Ord` of the source type orders by fields in declaration order. -/
def commitmentLt (a b : SequencerCommitment) : Bool :=
  a.merkle_root < b.merkle_root ∨
    (a.merkle_root = b.merkle_root ∧
      (a.l2_start_block_number < b.l2_start_block_number ∨
        (a.l2_start_block_number = b.l2_start_block_number ∧
          a.l2_end_block_number < b.l2_end_block_number)))

/-- Stable insertion of a commitment into a sorted list. -/
def insertCommitment (c : SequencerCommitment) :
    List SequencerCommitment → List SequencerCommitment
  | [] => [c]
  | x :: xs => if commitmentLt c x then c :: x :: xs
               else x :: insertCommitment c xs

/-- The source's `commitments_on_da_slot.sort()`: stable sort of the stored commitments. -/
def sortCommitments (l : List SequencerCommitment) :
    List SequencerCommitment :=
  l.foldr insertCommitment []

/-- Remove the commitments whose (post-sort) index is listed in
`preproven_commitments`, keeping order
(the `enumerate/filter/map` chain of the source). -/
def filterPreproven (l : List SequencerCommitment) (excluded : List Nat) :
    List SequencerCommitment :=
  (l.enum.filter (fun ic => ¬ excluded.contains ic.1)).map (·.2)

/-- The commitments covered by the proof: the inclusive index range
`[range.0, range.1]` of the filtered list
(the source's `.skip(range.0).take(range.1 - range.0 + 1)`). -/
def coveredCommitments (filtered : List SequencerCommitment)
    (range : Nat × Nat) : List SequencerCommitment :=
  (filtered.drop range.1).take (range.2 - range.1 + 1)

/-- The node-level environment of the DA block handler: configured keys and
the zkVM capability set (`extract_output` returning `none` models a
non-deserializable proof, which the source `expect`s on; `code_commitments`
is `code_commitments_by_spec`; `fork_spec` is
`fork_from_block_number(..).spec_id`, modelled from the spec §4.4 as a
function of the L2 height since `citrea_primitives::forks` is not among the
sources). -/
structure HandlerEnv where
  hp : Hash → Hash → Hash
  sequencer_pub_key : PubKey
  sequencer_da_pub_key : PubKey
  extract_output : Proof → Option BatchProofCircuitOutput
  code_commitments : SpecId → Option CodeCommitment
  verify : Proof → CodeCommitment → Bool
  fork_spec : Nat → SpecId

/-- The ledger writes of a successful `process_zk_proof`
(`da_block_handler.rs:401-424`): mark every L2 height of every covered
commitment `Proven`, then persist the proof under the L1 block height it was
found in. -/
def zkProofWrites (db : Ledger) (l1BlockHeight : Nat) (proof : Proof)
    (covered : List SequencerCommitment) : Ledger :=
  update_verified_proof_data
    (covered.foldl
      (fun d c => put_status_range d c.l2_start_block_number
        c.l2_end_block_number .Proven) db)
    l1BlockHeight proof

/-- The handler's `process_zk_proof`: decode the proof's public output, check the
sequencer keys, verify the proof against the fork's code commitment, chain
the initial state root against the locally stored root just before the first
covered L2 block, and on success mark every covered L2 height `Proven` and
persist the proof. -/
def process_zk_proof (env : HandlerEnv) (db : Ledger) (l1BlockHeight : Nat)
    (proof : Proof) : Outcome (Except SyncError Ledger) :=
  match env.extract_output proof with
  | none => .panic "Proof should be deserializable"
  | some out =>
    if out.sequencer_da_public_key ≠ env.sequencer_da_pub_key ∨
        out.sequencer_public_key ≠ env.sequencer_pub_key then
      .ok (.error (.Error "Sequencer public key or sequencer da public key mismatch"))
    else
      match env.code_commitments (env.fork_spec out.last_l2_height) with
      | none => .panic "Proof public input must contain valid spec id"
      | some cc =>
        if ¬ env.verify proof cc then
          .ok (.error (.Error "Failed to verify proof"))
        else
          match db.l1_height_of_l1_hash out.da_slot_hash with
          | none => .ok (.error (.Error "L1 height not found for l1 hash"))
          | some l1_height =>
            match db.commitments_on_slot l1_height with
            | none => .ok (.error (.Error "No commitments found for l1 height"))
            | some commitments =>
              let sorted := sortCommitments commitments
              let filtered := filterPreproven sorted out.preproven_commitments
              match filtered.get? out.sequencer_commitments_range.1 with
              | none => .panic "index out of bounds"
              | some c0 =>
                let l2_height := c0.l2_start_block_number
                match db.l2_state_roots (l2_height - 1) with
                | none => .ok (.error (.Error "Could not find state root"))
                | some prior_root =>
                  if prior_root ≠ out.initial_state_root then
                    .ok (.error (.Error "Pre state root mismatch"))
                  else
                    .ok (.ok (zkProofWrites db l1BlockHeight proof
                      (coveredCommitments filtered
                        out.sequencer_commitments_range)))

/-! ## `process_l1_block` and the handler loop
(`crates/fullnode/src/da_block_handler.rs:100-219`)

`extract_sequencer_commitments` and `extract_zk_proofs` live in
`citrea_common::da` (not among the sources); the extraction results are
inputs of the model, carried with the block.  The per-block processing
returns a trace of the items it attempted (zk proofs and commitments, in
attempt order) and whether the block completed (was popped from the pending
queue) or was deferred for the next tick. -/

/-- An L1 block header as seen by the handler. -/
structure L1Block where
  height : Nat
  hash : Hash
deriving Repr, DecidableEq

/-- An L1 block together with the blobs extracted from it. -/
structure BlockInput where
  block : L1Block
  zk_proofs : List Proof
  sequencer_commitments : List SequencerCommitment

/-- One attempted item in the processing of an L1 block. -/
inductive TraceEvent where
  | proofEv (p : Proof)
  | commitmentEv (c : SequencerCommitment)
deriving Repr, DecidableEq

/-- Whether a trace event is a zk-proof attempt. -/
def TraceEvent.isProof : TraceEvent → Bool
  | .proofEv _ => true
  | .commitmentEv _ => false

/-- Availability check `check_l2_range_exists(first.l2_start, last.l2_end)`.  Modelled from the
spec (`citrea_common::utils` is not among the sources): true iff every L2
height of the inclusive range has a stored soft confirmation. -/
def check_l2_range_exists (db : Ledger) (s e : Nat) : Bool :=
  (List.range' s (e + 1 - s)).all (fun h => (db.soft_confirmations h).isSome)

/-- The `for zk_proof in zk_proofs` loop: a `MissingL2` error returns from
`process_l1_block` (the block is deferred: `false`), an `Error` is logged
and skipped, success threads the updated ledger.  The returned trace lists
the proofs attempted. -/
def processProofsLoop (env : HandlerEnv) (l1BlockHeight : Nat) :
    Ledger → List Proof → Outcome (Ledger × List TraceEvent × Bool)
  | db, [] => .ok (db, [], true)
  | db, p :: ps =>
    match process_zk_proof env db l1BlockHeight p with
    | .panic m => .panic m
    | .ok (.error (.MissingL2 _ _ _)) => .ok (db, [.proofEv p], false)
    | .ok (.error (.Error _)) =>
      match processProofsLoop env l1BlockHeight db ps with
      | .panic m => .panic m
      | .ok (db', tr, done) => .ok (db', .proofEv p :: tr, done)
    | .ok (.ok db1) =>
      match processProofsLoop env l1BlockHeight db1 ps with
      | .panic m => .panic m
      | .ok (db', tr, done) => .ok (db', .proofEv p :: tr, done)

/-- The `for sequencer_commitment in sequencer_commitments` loop, with the
same error discipline as the proofs loop (no panic is possible here). -/
def processCommitmentsLoop (hp : Hash → Hash → Hash) (l1Height : Nat) :
    Ledger → List SequencerCommitment → Ledger × List TraceEvent × Bool
  | db, [] => (db, [], true)
  | db, sc :: scs =>
    match process_sequencer_commitment hp db l1Height sc with
    | .error (.MissingL2 _ _ _) => (db, [.commitmentEv sc], false)
    | .error (.Error _) =>
      let (db', tr, done) := processCommitmentsLoop hp l1Height db scs
      (db', .commitmentEv sc :: tr, done)
    | .ok db1 =>
      let (db', tr, done) := processCommitmentsLoop hp l1Height db1 scs
      (db', .commitmentEv sc :: tr, done)

/-- Result of one `process_l1_block` call: the ledger after the call, the
trace of attempted items, and whether the block was completed (popped). -/
structure BlockResult where
  ledger : Ledger
  trace : List TraceEvent
  completed : Bool

/-- The handler's `process_l1_block` on the front pending block: record the L1 hash→height
index, defer if a commitment range is not yet synced, process all zk proofs,
then all sequencer commitments, and on completion record the last scanned L1
height. -/
def process_l1_block (env : HandlerEnv) (db : Ledger) (inp : BlockInput) :
    Outcome BlockResult :=
  if inp.sequencer_commitments ≠ [] ∧
      ¬ check_l2_range_exists
        (set_l1_height_of_l1_hash db inp.block.hash inp.block.height)
        (inp.sequencer_commitments.headD ⟨0, 0, 0⟩).l2_start_block_number
        (inp.sequencer_commitments.getLastD ⟨0, 0, 0⟩).l2_end_block_number then
    .ok ⟨set_l1_height_of_l1_hash db inp.block.hash inp.block.height,
      [], false⟩
  else
    match processProofsLoop env inp.block.height
        (set_l1_height_of_l1_hash db inp.block.hash inp.block.height)
        inp.zk_proofs with
    | .panic m => .panic m
    | .ok (db1, tr1, false) => .ok ⟨db1, tr1, false⟩
    | .ok (db1, tr1, true) =>
      match processCommitmentsLoop env.hp inp.block.height db1
          inp.sequencer_commitments with
      | (db2, tr2, false) => .ok ⟨db2, tr1 ++ tr2, false⟩
      | (db2, tr2, true) =>
        .ok ⟨set_last_scanned_l1_height db2 inp.block.height,
          tr1 ++ tr2, true⟩

/-! ### The handler's `run` loop as a transition system

The `select!` loop interleaves receiving L1 blocks from the sync worker
(pushed to the back of `pending_l1_blocks`) with ticks that call
`process_l1_block` on the front block; the front block is popped exactly
when the call completes.  `incoming` models the channel contents still to be
delivered by `sync_l1`. -/

/-- State of the handler loop. -/
structure LoopState where
  pending : List BlockInput
  processedHeights : List Nat
  ledger : Ledger
  incoming : List BlockInput

/-- One step of the handler's `select!` loop. -/
inductive LoopStep (env : HandlerEnv) : LoopState → LoopState → Prop
  | receive (b : BlockInput) (rest : List BlockInput) (s : LoopState) :
      s.incoming = b :: rest →
      LoopStep env s ⟨s.pending ++ [b], s.processedHeights, s.ledger, rest⟩
  | tickDefer (b : BlockInput) (rest : List BlockInput) (s : LoopState)
      (res : BlockResult) :
      s.pending = b :: rest →
      process_l1_block env s.ledger b = .ok res →
      res.completed = false →
      LoopStep env s ⟨s.pending, s.processedHeights, res.ledger, s.incoming⟩
  | tickComplete (b : BlockInput) (rest : List BlockInput) (s : LoopState)
      (res : BlockResult) :
      s.pending = b :: rest →
      process_l1_block env s.ledger b = .ok res →
      res.completed = true →
      LoopStep env s
        ⟨rest, s.processedHeights ++ [b.block.height], res.ledger, s.incoming⟩

/-- Reachability in the handler loop. -/
def LoopReachable (env : HandlerEnv) : LoopState → LoopState → Prop :=
  Relation.ReflTransGen (LoopStep env)

/-- All L1 heights a loop state still mentions, in queue order:
completed first, then pending, then not yet delivered. -/
def LoopState.allHeights (s : LoopState) : List Nat :=
  s.processedHeights ++ s.pending.map (·.block.height) ++
    s.incoming.map (·.block.height)

/-- The sync worker `sync_l1` (`da_block_handler.rs:429-486`): each round reads the last
finalized L1 height `n` and forwards the blocks `cur+1 ..= n` in height
order; `cur` becomes `max cur n`.  `syncEmissions cur finals` is the list of
heights sent over the channel across rounds, for the successive finalized
heights `finals`. -/
def syncEmissions (cur : Nat) : List Nat → List Nat
  | [] => []
  | n :: rest => List.range' (cur + 1) (n - cur) ++ syncEmissions (max cur n) rest

/-! ## The runner: `process_l2_block`
(`crates/fullnode/src/runner.rs:224-322`)

The STF (`StfBlueprint::apply_soft_confirmation`), the transaction parser
(`SoftConfirmationResponse::try_into`) and the DA block getter
(`get_da_block_at_height`) live outside the sources and are capability
parameters of the model.  Per spec §7 transport errors are retried locally
and are never surfaced ("always retriable with backoff; never fatal"), so
the DA getter is total.  In the source every mutation — saving the change
set, finalizing the height, committing the receipt, extending the L1 slot's
L2 range, registering the fork block, and updating the tracked state root
and batch hash — happens after the last check, so each early `bail!` returns
with the runner state untouched; the model returns the error paired with the
unchanged state. -/

/-- A soft confirmation as fetched from the sequencer
(`SoftConfirmationResponse`), restricted to the fields the runner reads. -/
structure SoftConfirmationResponse where
  hash : Hash
  prev_hash : Hash
  da_slot_height : Nat
  state_root : StateRoot
deriving Repr, DecidableEq

/-- Opaque parsed soft confirmation (`SignedSoftConfirmation`). -/
abbrev SignedSoftConfirmation := Nat

/-- Opaque storage change set produced by the STF. -/
abbrev ChangeSet := Nat

/-- The STF apply result, restricted to the fields the runner reads
(`state_root_transition.final_root` and `change_set`). -/
structure SoftConfirmationResult where
  final_root : StateRoot
  change_set : ChangeSet
deriving Repr, DecidableEq

/-- The runner's capability environment. -/
structure RunnerEnv where
  get_da_block_at_height : Nat → L1Block
  parse_transactions : SoftConfirmationResponse → Option SignedSoftConfirmation
  apply_soft_confirmation :
    SpecId → StateRoot → L1Block → SignedSoftConfirmation →
      Option SoftConfirmationResult
  active_spec : SpecId

/-- The runner-owned state: the tracked tip, the storage manager's saved and
finalized heights, and the ledger writes of a successful apply. -/
structure RunnerState where
  state_root : StateRoot
  batch_hash : Hash
  saved_change_sets : List (Nat × ChangeSet)
  finalized_heights : List Nat
  committed_soft_confirmations : List (Nat × StateRoot)
  l2_range_of_l1_slot : List (Nat × Nat)
  registered_fork_blocks : List Nat
deriving Repr, DecidableEq

/-- The runner's `process_l2_block`: apply one soft confirmation.  Returns the error (if
any) together with the runner state after the call. -/
def process_l2_block (env : RunnerEnv) (st : RunnerState) (l2_height : Nat)
    (soft_confirmation : SoftConfirmationResponse) :
    Option String × RunnerState :=
  let current_l1_block := env.get_da_block_at_height soft_confirmation.da_slot_height
  if st.batch_hash ≠ soft_confirmation.prev_hash then
    (some "Previous hash mismatch", st)
  else
    match env.parse_transactions soft_confirmation with
    | none => (some "Failed to parse transactions", st)
    | some signed_soft_confirmation =>
      match env.apply_soft_confirmation env.active_spec st.state_root
          current_l1_block signed_soft_confirmation with
      | none => (some "Apply soft confirmation failed", st)
      | some result =>
        if result.final_root ≠ soft_confirmation.state_root then
          (some "Post state root mismatch", st)
        else
          (none,
            { state_root := result.final_root
              batch_hash := soft_confirmation.hash
              saved_change_sets :=
                st.saved_change_sets ++ [(l2_height, result.change_set)]
              finalized_heights := st.finalized_heights ++ [l2_height]
              committed_soft_confirmations :=
                st.committed_soft_confirmations ++
                  [(l2_height, result.final_root)]
              l2_range_of_l1_slot :=
                st.l2_range_of_l1_slot ++
                  [(current_l1_block.height, l2_height)]
              registered_fork_blocks :=
                st.registered_fork_blocks ++ [l2_height] })

/-! ## EVM begin-hook: system events and the block-hash ring
(`crates/evm/src/hooks.rs:26-160`) -/

/-- Opaque bridge deposit parameters (`deposit_data` items). -/
abbrev DepositData := Nat

/-- The hook argument
(`sov_modules_api::hooks::HookSoftConfirmationInfo`), restricted to the
fields the begin hook reads. -/
structure HookSoftConfirmationInfo where
  l2_height : Nat
  da_slot_hash : Hash
  da_slot_height : Nat
  da_slot_txs_commitment : Hash
  pre_state_root : StateRoot
  current_spec : SpecId
  deposit_data : List DepositData
  l1_fee_rate : Nat
  timestamp : Nat
deriving Repr, DecidableEq

/-- System events synthesized at the head of a soft confirmation
(`crate::evm::system_events::SystemEvent`). -/
inductive SystemEvent where
  | bitcoinLightClientInitialize (da_height : Nat)
  | bitcoinLightClientSetBlockInfo (da_hash : Hash) (txs_commitment : Hash)
  | bridgeInitialize
  | bridgeDeposit (params : DepositData)
deriving Repr, DecidableEq

/-- The system events populated by `begin_soft_confirmation_hook`
(`hooks.rs:74-100`): the light-client and bridge initialization trio when no
L1 hash was ever recorded, a set-block-info when the DA slot hash changed,
and one bridge deposit per `deposit_data` item, appended last. -/
def populateSystemEvents (last_l1_hash : Option Hash)
    (info : HookSoftConfirmationInfo) : List SystemEvent :=
  let base : List SystemEvent :=
    match last_l1_hash with
    | some h =>
      if h ≠ info.da_slot_hash then
        [.bitcoinLightClientSetBlockInfo info.da_slot_hash
          info.da_slot_txs_commitment]
      else []
    | none =>
      [.bitcoinLightClientInitialize info.da_slot_height,
        .bitcoinLightClientSetBlockInfo info.da_slot_hash
          info.da_slot_txs_commitment,
        .bridgeInitialize]
  base ++ info.deposit_data.map .bridgeDeposit

/-- The system events actually executed by the hook: `execute_system_events`
is called only when the populated list is non-empty (`hooks.rs:136-145`). -/
def executedSystemEvents (last_l1_hash : Option Hash)
    (info : HookSoftConfirmationInfo) : List SystemEvent :=
  if (populateSystemEvents last_l1_hash info).isEmpty then []
  else populateSystemEvents last_l1_hash info

/-- Point update of the `latest_block_hashes` map. -/
def mapInsert (m : Nat → Option Hash) (k : Nat) (v : Hash) :
    Nat → Option Hash :=
  fun x => if x = k then some v else m x

/-- Point removal from the `latest_block_hashes` map. -/
def mapRemove (m : Nat → Option Hash) (k : Nat) : Nat → Option Hash :=
  fun x => if x = k then none else m x

/-- The `latest_block_hashes` update of one begin hook with pending block
number `pending` (`hooks.rs:63-71` and `147-156`): record the parent's hash
under `pending - 1`, and once `pending > 256` remove the entry for
`pending - 257`.  `hashOf k` stands for the sealed header hash of block `k`
(known only at this hook, after the parent's state root is installed). -/
def beginHookRing (hashOf : Nat → Hash) (m : Nat → Option Hash)
    (pending : Nat) : Nat → Option Hash :=
  let m1 := mapInsert m (pending - 1) (hashOf (pending - 1))
  if pending > 256 then mapRemove m1 (pending - 257) else m1

/-- The `latest_block_hashes` map after the begin hooks of pending blocks
`1, 2, ..., n` (the chain starts at the genesis head, block `0`). -/
def ringAfter (hashOf : Nat → Hash) : Nat → (Nat → Option Hash)
  | 0 => fun _ => none
  | n + 1 => beginHookRing hashOf (ringAfter hashOf n) (n + 1)

/-- Modelled from the spec: the `BLOCKHASH` lookup against the
`latest_block_hashes` map (the EVM database getter is not among the
sources; spec §8: "for a query `i` with `head − 256 ≤ i < head`, the
contract returns the correct hash; otherwise zero").  An absent entry reads
as zero. -/
def blockHashQuery (m : Nat → Option Hash) (i : Nat) : Hash := (m i).getD 0

/-! ## L1-fee accounting
(spec §4.2 and §4.1 `apply_call_batch`; `crate::handler` is not among the
sources — only its tests, `crates/evm/src/tests/call_tests.rs`, are). -/

/-- Modelled from the spec: `BROTLI_COMPRESSION_PERCENTAGE`
(`crate::handler`, not among the sources).  Its value is pinned by the
repository's own test `test_l1_fee_compression_discount`
(`call_tests.rs:1824-1827`): the raw diff size 140 compresses to 46 and the
test asserts `140 * P / 100 == 46` in integer arithmetic, which forces
`P = 33`. -/
def BROTLI_COMPRESSION_PERCENTAGE : Nat := 33

/-- Modelled from the spec: the fork-gated compressed diff size
(`crate::handler`, not among the sources).  The repository's test
`test_l1_fee_compression_discount` asserts
`tx1_diff_size * BROTLI_COMPRESSION_PERCENTAGE as u64 / 100 == tx2_diff_size`
(Rust integer division, i.e. the floor), with the same transaction measuring
140 under `Genesis` and 46 under `Fork1`. -/
def compressedDiffSize (spec : SpecId) (raw : Nat) : Nat :=
  if spec.atLeast .Fork1 then raw * BROTLI_COMPRESSION_PERCENTAGE / 100
  else raw

/-- The account balances touched by the L1-fee step. -/
structure Balances where
  sender : Nat
  base_fee_vault : Nat
  coinbase : Nat
  l1_fee_vault : Nat
deriving Repr, DecidableEq

/-- Per-transaction call errors of `apply_call_batch` relevant here. -/
inductive CallError where
  | NotEnoughFundsForL1Fee
deriving Repr, DecidableEq

/-- Modelled from the spec: the post-EVM L1-fee step of `apply_call_batch`
(`crate::handler`, not among the sources; spec §4.1: "compute L1 fee =
(compressed_size × l1_fee_rate) + L1_FEE_OVERHEAD ... Deduct L1 fee from the
sender after EVM execution; if the sender cannot cover it, the whole
transaction fails with NotEnoughFundsForL1Fee", §4.2: the diff size stored
on the receipt — the repository's test pins the stored value to the
post-discount size, `call_tests.rs:1829-1835`).  Returns the balances after
the step and the `l1_diff_size` recorded on the receipt.
`l1_fee_overhead` is the protocol constant `L1_FEE_OVERHEAD`, whose numeric
value the sources do not fix. -/
def applyL1FeeAfterEvm (l1_fee_overhead : Nat) (spec : SpecId)
    (l1_fee_rate : Nat) (raw_diff_size : Nat) (bal : Balances) :
    Except CallError (Balances × Nat) :=
  if bal.sender <
      compressedDiffSize spec raw_diff_size * l1_fee_rate + l1_fee_overhead
    then .error .NotEnoughFundsForL1Fee
  else .ok
    ({ bal with
        sender := bal.sender -
          (compressedDiffSize spec raw_diff_size * l1_fee_rate +
            l1_fee_overhead)
        l1_fee_vault := bal.l1_fee_vault +
          (compressedDiffSize spec raw_diff_size * l1_fee_rate +
            l1_fee_overhead) },
      compressedDiffSize spec raw_diff_size)

/-! # Theorems -/

/-! ## Ledger update lemmas -/

theorem put_status_list_status (l : List Nat) (db : Ledger)
    (st : SoftConfirmationStatus) (k : Nat) :
    (put_status_list db l st).soft_confirmation_status k =
      if k ∈ l then some st else db.soft_confirmation_status k := by
  induction l generalizing db with
  | nil => simp [put_status_list]
  | cons a as ih =>
    show (put_status_list (put_soft_confirmation_status db a st) as
      st).soft_confirmation_status k = _
    rw [ih]
    by_cases hk : k ∈ as
    · simp [hk]
    · by_cases hka : k = a <;>
        simp [hk, hka, put_soft_confirmation_status]

theorem put_status_range_status (db : Ledger) (s e : Nat)
    (st : SoftConfirmationStatus) (k : Nat) :
    (put_status_range db s e st).soft_confirmation_status k =
      if s ≤ k ∧ k ≤ e then some st else db.soft_confirmation_status k := by
  rw [put_status_range, put_status_list_status]
  have : k ∈ List.range' s (e + 1 - s) ↔ (s ≤ k ∧ k ≤ e) := by
    rw [List.mem_range'_1]
    omega
  simp only [this]

theorem put_status_list_commitments_on_slot (l : List Nat) (db : Ledger)
    (st : SoftConfirmationStatus) :
    (put_status_list db l st).commitments_on_slot =
      db.commitments_on_slot := by
  induction l generalizing db with
  | nil => rfl
  | cons a as ih =>
    show (put_status_list (put_soft_confirmation_status db a st) as
      st).commitments_on_slot = _
    rw [ih]
    rfl

/-! ## Claim C1

The spec and the source's own comment ("Make sure that the number of stored
soft confirmations is equal to the range's length") require the availability
gate to fire whenever strictly fewer than `end - start + 1` soft
confirmations of the range are stored; the code compares the count against
`end - start`.  With the range `[1, 2]` and exactly one stored soft
confirmation the gate does not fire and the handler proceeds to the
merkle-root comparison over the incomplete leaf list, rejecting the
commitment with a skip-this-item `Error` instead of deferring the L1 block
with `MissingL2(1, 2)`. -/

/-- Claim C1 (code bug, evaluation): a commitment over `[1, 2]` with only
height 1 stored (one stored soft confirmation, strictly fewer than
`end - start + 1 = 2`) is not answered with `MissingL2`: the handler runs
the merkle comparison over the single stored leaf and returns the
skip-this-item merkle-mismatch error. -/
theorem c1_missing_l2_gate_off_by_one :
    (get_soft_confirmation_range
      { Ledger.empty with
          soft_confirmations := fun k => if k = 1 then some ⟨5⟩ else none }
      1 2).length = 1 ∧
    1 < 2 - 1 + 1 ∧
    process_sequencer_commitment (fun a b => a + b)
      { Ledger.empty with
          soft_confirmations := fun k => if k = 1 then some ⟨5⟩ else none }
      10 ⟨0, 1, 2⟩ =
      .error (.Error "Merkle root mismatch") :=
  ⟨rfl, by decide, rfl⟩

/-! ## Claim C2 -/

/-- Claim C2: for a sequencer commitment that passes the handler's
availability gate (the code's `stored.len() < end - start` check), the
handler records the commitment on the L1 slot and marks every L2 height of
the inclusive range `Finalized` if and only if the merkle root computed over
the locally stored soft-confirmation hashes of the range (leaves in block
order) equals the commitment's claimed root; on a mismatch the commitment is
rejected with a skip-this-item `Error` (never `MissingL2`, so the L1 block
is not deferred), no ledger state is produced, and in the commitment loop of
`process_l1_block` the remaining commitments of the same L1 block are still
processed against the unchanged ledger. -/
theorem process_sequencer_commitment_finalizes_iff
    (hp : Hash → Hash → Hash) (db : Ledger) (l1h : Nat)
    (sc : SequencerCommitment)
    (hgate : ¬ (get_soft_confirmation_range db sc.l2_start_block_number
        sc.l2_end_block_number).length <
      sc.l2_end_block_number - sc.l2_start_block_number) :
    ((∃ db', process_sequencer_commitment hp db l1h sc = .ok db') ↔
      merkleRoot hp ((get_soft_confirmation_range db
          sc.l2_start_block_number sc.l2_end_block_number).map (·.hash)) =
        some sc.merkle_root) ∧
    (∀ db', process_sequencer_commitment hp db l1h sc = .ok db' →
      (∀ i, sc.l2_start_block_number ≤ i → i ≤ sc.l2_end_block_number →
        db'.soft_confirmation_status i = some .Finalized) ∧
      db'.commitments_on_slot l1h =
        some ((db.commitments_on_slot l1h).getD [] ++ [sc])) ∧
    (merkleRoot hp ((get_soft_confirmation_range db
        sc.l2_start_block_number sc.l2_end_block_number).map (·.hash)) ≠
        some sc.merkle_root →
      ∃ m, process_sequencer_commitment hp db l1h sc = .error (.Error m)) ∧
    (∀ m rest, process_sequencer_commitment hp db l1h sc = .error (.Error m) →
      processCommitmentsLoop hp l1h db (sc :: rest) =
        ((processCommitmentsLoop hp l1h db rest).1,
          .commitmentEv sc :: (processCommitmentsLoop hp l1h db rest).2.1,
          (processCommitmentsLoop hp l1h db rest).2.2)) := by
  have hloop : ∀ m rest,
      process_sequencer_commitment hp db l1h sc = .error (.Error m) →
      processCommitmentsLoop hp l1h db (sc :: rest) =
        ((processCommitmentsLoop hp l1h db rest).1,
          .commitmentEv sc :: (processCommitmentsLoop hp l1h db rest).2.1,
          (processCommitmentsLoop hp l1h db rest).2.2) := by
    intro m rest herr
    rcases hres : processCommitmentsLoop hp l1h db rest with ⟨db', tr, done⟩
    simp only [processCommitmentsLoop, herr, hres]
  refine ⟨?_, ?_, ?_, hloop⟩
  all_goals
    rcases hroot : merkleRoot hp ((get_soft_confirmation_range db
        sc.l2_start_block_number sc.l2_end_block_number).map (·.hash)) with
      _ | r
  case refine_1.none =>
    have hres : process_sequencer_commitment hp db l1h sc =
        .error (.Error "Could not calculate soft confirmation tree root") := by
      unfold process_sequencer_commitment
      rw [if_neg hgate, hroot]
    constructor
    · rintro ⟨db', hdb'⟩
      rw [hres] at hdb'
      cases hdb'
    · intro h
      rw [hroot] at h
      cases h
  case refine_1.some =>
    by_cases hr : r = sc.merkle_root
    · have hres : process_sequencer_commitment hp db l1h sc =
          .ok (commitmentWrites db l1h sc) := by
        unfold process_sequencer_commitment
        rw [if_neg hgate, hroot]
        simp [hr]
      constructor
      · intro _
        rw [hroot, hr]
      · intro _
        exact ⟨_, hres⟩
    · have hres : process_sequencer_commitment hp db l1h sc =
          .error (.Error "Merkle root mismatch") := by
        unfold process_sequencer_commitment
        rw [if_neg hgate, hroot]
        simp [hr]
      constructor
      · rintro ⟨db', hdb'⟩
        rw [hres] at hdb'
        cases hdb'
      · intro h
        rw [hroot] at h
        cases h
        exact absurd rfl hr
  case refine_2.none =>
    intro db' hdb'
    have hres : process_sequencer_commitment hp db l1h sc =
        .error (.Error "Could not calculate soft confirmation tree root") := by
      unfold process_sequencer_commitment
      rw [if_neg hgate, hroot]
    rw [hres] at hdb'
    cases hdb'
  case refine_2.some =>
    intro db' hdb'
    by_cases hr : r = sc.merkle_root
    · have hres : process_sequencer_commitment hp db l1h sc =
          .ok (commitmentWrites db l1h sc) := by
        unfold process_sequencer_commitment
        rw [if_neg hgate, hroot]
        simp [hr]
      rw [hres, Except.ok.injEq] at hdb'
      subst hdb'
      constructor
      · intro i his hie
        show (put_status_range _ _ _ _).soft_confirmation_status i = _
        rw [put_status_range_status]
        simp [his, hie]
      · show (put_status_range _ _ _ _).commitments_on_slot l1h = _
        rw [put_status_range, put_status_list_commitments_on_slot]
        simp [update_commitments_on_da_slot]
    · have hres : process_sequencer_commitment hp db l1h sc =
          .error (.Error "Merkle root mismatch") := by
        unfold process_sequencer_commitment
        rw [if_neg hgate, hroot]
        simp [hr]
      rw [hres] at hdb'
      cases hdb'
  case refine_3.none =>
    intro _
    refine ⟨"Could not calculate soft confirmation tree root", ?_⟩
    unfold process_sequencer_commitment
    rw [if_neg hgate, hroot]
  case refine_3.some =>
    intro h
    have hr : r ≠ sc.merkle_root := by
      intro he
      exact h (by rw [hroot, he])
    refine ⟨"Merkle root mismatch", ?_⟩
    unfold process_sequencer_commitment
    rw [if_neg hgate, hroot]
    simp [hr]

/-- Claim C2 witness: a concrete commitment over `[1, 2]` with both heights
stored and a matching root is accepted. -/
theorem process_sequencer_commitment_finalizes_iff_witness :
    ∃ db', process_sequencer_commitment (fun a b => a + b)
      { Ledger.empty with
          soft_confirmations := fun k =>
            if k = 1 then some ⟨5⟩ else if k = 2 then some ⟨7⟩ else none }
      4 ⟨12, 1, 2⟩ = .ok db' :=
  ((process_sequencer_commitment_finalizes_iff (fun a b => a + b)
    { Ledger.empty with
        soft_confirmations := fun k =>
          if k = 1 then some ⟨5⟩ else if k = 2 then some ⟨7⟩ else none }
    4 ⟨12, 1, 2⟩ (by decide)).1).mpr rfl

/-! ## Claim C3 -/

theorem put_status_range_preserves_proven (db : Ledger) (s e i : Nat)
    (h : db.soft_confirmation_status i = some .Proven) :
    (put_status_range db s e .Proven).soft_confirmation_status i =
      some .Proven := by
  rw [put_status_range_status]
  split <;> simp [h]

theorem foldProven_preserves (cs : List SequencerCommitment) (db : Ledger)
    (i : Nat) (h : db.soft_confirmation_status i = some .Proven) :
    (cs.foldl (fun d c => put_status_range d c.l2_start_block_number
        c.l2_end_block_number .Proven) db).soft_confirmation_status i =
      some .Proven := by
  induction cs generalizing db with
  | nil => exact h
  | cons c cs ih =>
    exact ih _ (put_status_range_preserves_proven _ _ _ _ h)

theorem foldProven_covered (cs : List SequencerCommitment) (db : Ledger)
    (i : Nat)
    (h : ∃ c ∈ cs, c.l2_start_block_number ≤ i ∧ i ≤ c.l2_end_block_number) :
    (cs.foldl (fun d c => put_status_range d c.l2_start_block_number
        c.l2_end_block_number .Proven) db).soft_confirmation_status i =
      some .Proven := by
  induction cs generalizing db with
  | nil => simp at h
  | cons c cs ih =>
    rcases h with ⟨c', hc', hlo, hhi⟩
    rw [List.foldl_cons]
    rcases List.mem_cons.mp hc' with rfl | hmem
    · apply foldProven_preserves
      rw [put_status_range_status]
      simp [hlo, hhi]
    · exact ih _ ⟨c', hmem, hlo, hhi⟩

/-- Claim C3: the full node marks L2 heights `Proven` and persists a proof's
output only when the output's sequencer keys equal the node's configured
keys and the chaining check holds: after sorting the commitments stored at
the L1 height resolved from the output's `da_slot_hash` and removing the
preproven indices, the stored L2 state root just before the `range.0`-th
remaining commitment's `l2_start` equals the output's `initial_state_root`
(part 1); on a key mismatch, and on a chaining mismatch with every earlier
check passing, the proof is rejected with a skip-this-item error and no
ledger state is produced, so no height is marked `Proven` by it (parts 2 and
3). -/
theorem process_zk_proof_proven_only_if (env : HandlerEnv) (db : Ledger)
    (l1BlockHeight : Nat) (p : Proof) :
    (∀ db', process_zk_proof env db l1BlockHeight p = .ok (.ok db') →
      ∃ out, env.extract_output p = some out ∧
        out.sequencer_da_public_key = env.sequencer_da_pub_key ∧
        out.sequencer_public_key = env.sequencer_pub_key ∧
        ∃ l1_height commitments c0,
          db.l1_height_of_l1_hash out.da_slot_hash = some l1_height ∧
          db.commitments_on_slot l1_height = some commitments ∧
          (filterPreproven (sortCommitments commitments)
              out.preproven_commitments).get?
            out.sequencer_commitments_range.1 = some c0 ∧
          db.l2_state_roots (c0.l2_start_block_number - 1) =
            some out.initial_state_root ∧
          db' = zkProofWrites db l1BlockHeight p
            (coveredCommitments
              (filterPreproven (sortCommitments commitments)
                out.preproven_commitments)
              out.sequencer_commitments_range) ∧
          (∀ c ∈ coveredCommitments
              (filterPreproven (sortCommitments commitments)
                out.preproven_commitments)
              out.sequencer_commitments_range,
            ∀ i, c.l2_start_block_number ≤ i → i ≤ c.l2_end_block_number →
              db'.soft_confirmation_status i = some .Proven)) ∧
    (∀ out, env.extract_output p = some out →
      (out.sequencer_da_public_key ≠ env.sequencer_da_pub_key ∨
        out.sequencer_public_key ≠ env.sequencer_pub_key) →
      process_zk_proof env db l1BlockHeight p =
        .ok (.error (.Error
          "Sequencer public key or sequencer da public key mismatch"))) ∧
    (∀ out cc l1_height commitments c0 prior_root,
      env.extract_output p = some out →
      out.sequencer_da_public_key = env.sequencer_da_pub_key →
      out.sequencer_public_key = env.sequencer_pub_key →
      env.code_commitments (env.fork_spec out.last_l2_height) = some cc →
      env.verify p cc = true →
      db.l1_height_of_l1_hash out.da_slot_hash = some l1_height →
      db.commitments_on_slot l1_height = some commitments →
      (filterPreproven (sortCommitments commitments)
          out.preproven_commitments).get?
        out.sequencer_commitments_range.1 = some c0 →
      db.l2_state_roots (c0.l2_start_block_number - 1) = some prior_root →
      prior_root ≠ out.initial_state_root →
      process_zk_proof env db l1BlockHeight p =
        .ok (.error (.Error "Pre state root mismatch"))) := by
  refine ⟨?_, ?_, ?_⟩
  · intro db' hok
    unfold process_zk_proof at hok
    rcases hext : env.extract_output p with _ | out <;>
      simp only [hext] at hok
    · cases hok
    by_cases hkeys : out.sequencer_da_public_key ≠ env.sequencer_da_pub_key ∨
        out.sequencer_public_key ≠ env.sequencer_pub_key
    · rw [if_pos hkeys] at hok
      cases hok
    rw [if_neg hkeys] at hok
    push_neg at hkeys
    rcases hcc : env.code_commitments (env.fork_spec out.last_l2_height) with
      _ | cc <;> simp only [hcc] at hok
    · cases hok
    by_cases hver : env.verify p cc = true
    swap
    · rw [if_pos (by simp [hver])] at hok
      cases hok
    rw [if_neg (by simp [hver])] at hok
    rcases hl1 : db.l1_height_of_l1_hash out.da_slot_hash with _ | l1_height <;>
      simp only [hl1] at hok
    · cases hok
    rcases hcomm : db.commitments_on_slot l1_height with _ | commitments <;>
      simp only [hcomm] at hok
    · cases hok
    rcases hc0 : (filterPreproven (sortCommitments commitments)
        out.preproven_commitments).get?
      out.sequencer_commitments_range.1 with _ | c0 <;>
      simp only [hc0] at hok
    · cases hok
    rcases hprior : db.l2_state_roots (c0.l2_start_block_number - 1) with
      _ | prior_root <;> simp only [hprior] at hok
    · cases hok
    by_cases hmt : prior_root ≠ out.initial_state_root
    · rw [if_pos hmt] at hok
      cases hok
    rw [if_neg hmt] at hok
    push_neg at hmt
    cases hok
    subst hmt
    refine ⟨out, rfl, hkeys.1, hkeys.2, l1_height, commitments, c0,
      hl1, hcomm, hc0, hprior, rfl, ?_⟩
    intro c hc i hlo hhi
    exact foldProven_covered _ _ _ ⟨c, hc, hlo, hhi⟩
  · intro out hext hkeys
    unfold process_zk_proof
    simp only [hext]
    rw [if_pos hkeys]
  · intro out cc l1_height commitments c0 prior_root hext hk1 hk2 hcc hver
      hl1 hcomm hc0 hprior hmt
    unfold process_zk_proof
    simp only [hext, hcc, hl1, hcomm, hc0, hprior]
    rw [if_neg (by simp [hk1, hk2])]
    rw [if_neg (by simp [hver])]
    rw [if_pos hmt]

/-- Claim C3 witness: at a concrete input, a proof whose output carries the
wrong sequencer public key is rejected with the skip-this-item error, and a
fully valid proof is accepted (so the success path of the theorem is not
vacuous). -/
theorem process_zk_proof_proven_only_if_witness :
    (∃ db', process_zk_proof
      ⟨fun a b => a + b, 1, 2,
        fun _ => some ⟨55, 66, 0, 0, 0, 99, (0, 0), 1, 2, 3, []⟩,
        fun _ => some 0, fun _ _ => true, fun _ => .Genesis⟩
      ⟨fun _ => none, fun k => if k = 0 then some 55 else none,
        fun h => if h = 99 then some 4 else none,
        fun k => if k = 4 then some [⟨12, 1, 2⟩] else none,
        fun _ => none, none, none, fun _ => []⟩
      7 0 = .ok (.ok db')) ∧
    process_zk_proof
      ⟨fun a b => a + b, 1, 2,
        fun _ => some ⟨55, 66, 0, 0, 0, 99, (0, 0), 9, 2, 3, []⟩,
        fun _ => some 0, fun _ _ => true, fun _ => .Genesis⟩
      Ledger.empty 7 0 =
      .ok (.error (.Error
        "Sequencer public key or sequencer da public key mismatch")) :=
  ⟨⟨_, rfl⟩,
    (process_zk_proof_proven_only_if _ Ledger.empty 7 0).2.1
      ⟨55, 66, 0, 0, 0, 99, (0, 0), 9, 2, 3, []⟩ rfl (by decide)⟩

/-! ## Claim C6

The claim states that a zk proof blob whose public output does not decode,
or whose fork has no code commitment, is only rejected (logged and skipped)
and never aborts the process.  The handler instead calls
`.expect("Proof should be deserializable")` and
`.expect("Proof public input must contain valid spec id")`
(`da_block_handler.rs:304-321`), and indexes
`filtered_commitments[range.0]`, each of which panics — aborting the
process — on failure. -/

/-- Claim C6 counterexample: with a proof blob whose public output does not
decode (`extract_output` returns `none`), `process_zk_proof` aborts the
process (panics) instead of rejecting the item. -/
theorem process_zk_proof_panics_on_undecodable :
    (process_zk_proof
      ⟨fun a b => a + b, 1, 2, fun _ => none, fun _ => some 0,
        fun _ _ => true, fun _ => .Genesis⟩
      Ledger.empty 3 0).isPanic = true := rfl

/-- Claim C6 (amended): `process_zk_proof` aborts the process only when the
proof's public output does not decode, or the fork of its `last_l2_height`
has no code commitment, or the commitment index `range.0` is out of bounds
of the filtered commitment list; every other failure is returned as a
skip-this-item error, and after such an error the proofs loop of
`process_l1_block` still processes the remaining proofs of the same L1
block against the unchanged ledger. -/
theorem process_zk_proof_panic_only_if (env : HandlerEnv) (db : Ledger)
    (l1BlockHeight : Nat) (p : Proof) :
    ((process_zk_proof env db l1BlockHeight p).isPanic = true →
      env.extract_output p = none ∨
      (∃ out, env.extract_output p = some out ∧
        (env.code_commitments (env.fork_spec out.last_l2_height) = none ∨
          (∃ l1_height commitments,
            db.l1_height_of_l1_hash out.da_slot_hash = some l1_height ∧
            db.commitments_on_slot l1_height = some commitments ∧
            (filterPreproven (sortCommitments commitments)
                out.preproven_commitments).get?
              out.sequencer_commitments_range.1 = none)))) ∧
    (∀ m rest, process_zk_proof env db l1BlockHeight p =
        .ok (.error (.Error m)) →
      processProofsLoop env l1BlockHeight db (p :: rest) =
        match processProofsLoop env l1BlockHeight db rest with
        | .panic m' => .panic m'
        | .ok (db', tr, done) => .ok (db', .proofEv p :: tr, done)) := by
  constructor
  · intro hpanic
    unfold process_zk_proof at hpanic
    rcases hext : env.extract_output p with _ | out <;>
      simp only [hext] at hpanic
    · exact Or.inl rfl
    refine Or.inr ⟨out, rfl, ?_⟩
    by_cases hkeys : out.sequencer_da_public_key ≠ env.sequencer_da_pub_key ∨
        out.sequencer_public_key ≠ env.sequencer_pub_key
    · rw [if_pos hkeys] at hpanic
      cases hpanic
    rw [if_neg hkeys] at hpanic
    rcases hcc : env.code_commitments (env.fork_spec out.last_l2_height) with
      _ | cc <;> simp only [hcc] at hpanic
    · exact Or.inl rfl
    refine Or.inr ?_
    by_cases hver : env.verify p cc = true
    swap
    · rw [if_pos (by simp [hver])] at hpanic
      cases hpanic
    rw [if_neg (by simp [hver])] at hpanic
    rcases hl1 : db.l1_height_of_l1_hash out.da_slot_hash with _ | l1_height <;>
      simp only [hl1] at hpanic
    · cases hpanic
    rcases hcomm : db.commitments_on_slot l1_height with _ | commitments <;>
      simp only [hcomm] at hpanic
    · cases hpanic
    refine ⟨l1_height, commitments, rfl, hcomm, ?_⟩
    rcases hc0 : (filterPreproven (sortCommitments commitments)
        out.preproven_commitments).get?
      out.sequencer_commitments_range.1 with _ | c0 <;>
      simp only [hc0] at hpanic
    · rfl
    rcases hprior : db.l2_state_roots (c0.l2_start_block_number - 1) with
      _ | prior_root <;> simp only [hprior] at hpanic
    · cases hpanic
    by_cases hmt : prior_root ≠ out.initial_state_root
    · rw [if_pos hmt] at hpanic
      cases hpanic
    · rw [if_neg hmt] at hpanic
      cases hpanic
  · intro m rest herr
    simp only [processProofsLoop, herr]

/-- Claim C6 (amended) witness: at the concrete undecodable-proof input the
abort is attributed to the decode failure, and a key-mismatch error lets the
proofs loop continue with the remaining proofs. -/
theorem process_zk_proof_panic_only_if_witness :
    ((HandlerEnv.extract_output
        ⟨fun a b => a + b, 1, 2, fun _ => none, fun _ => some 0,
          fun _ _ => true, fun _ => .Genesis⟩ 0 = none) ∨
      (∃ out, HandlerEnv.extract_output
          ⟨fun a b => a + b, 1, 2, fun _ => none, fun _ => some 0,
            fun _ _ => true, fun _ => .Genesis⟩ 0 = some out ∧
        (HandlerEnv.code_commitments
            ⟨fun a b => a + b, 1, 2, fun _ => none, fun _ => some 0,
              fun _ _ => true, fun _ => .Genesis⟩
            (HandlerEnv.fork_spec
              ⟨fun a b => a + b, 1, 2, fun _ => none, fun _ => some 0,
                fun _ _ => true, fun _ => .Genesis⟩ out.last_l2_height) =
              none ∨
          (∃ l1_height commitments,
            Ledger.empty.l1_height_of_l1_hash out.da_slot_hash =
              some l1_height ∧
            Ledger.empty.commitments_on_slot l1_height = some commitments ∧
            (filterPreproven (sortCommitments commitments)
                out.preproven_commitments).get?
              out.sequencer_commitments_range.1 = none)))) :=
  (process_zk_proof_panic_only_if
    ⟨fun a b => a + b, 1, 2, fun _ => none, fun _ => some 0,
      fun _ _ => true, fun _ => .Genesis⟩
    Ledger.empty 3 0).1 rfl

/-! ## Claim C4 -/

/-- Claim C4: `process_l2_block` returns an error exactly when the
response's `prev_hash` differs from the hash of the previously applied soft
confirmation (the runner's tracked `batch_hash`), the transactions fail to
parse, the STF apply fails, or the locally computed post-state root differs
from the response's claimed `state_root`; and in every error case the
runner's state is unchanged — no change set is saved, no height is
finalized, no receipt is committed, and the tracked state root and previous
batch hash keep their values. -/
theorem process_l2_block_error_iff (env : RunnerEnv) (st : RunnerState)
    (l2_height : Nat) (resp : SoftConfirmationResponse) :
    ((process_l2_block env st l2_height resp).1.isSome ↔
      (st.batch_hash ≠ resp.prev_hash ∨
        env.parse_transactions resp = none ∨
        (∃ ssc, env.parse_transactions resp = some ssc ∧
          env.apply_soft_confirmation env.active_spec st.state_root
            (env.get_da_block_at_height resp.da_slot_height) ssc = none) ∨
        (∃ ssc res, env.parse_transactions resp = some ssc ∧
          env.apply_soft_confirmation env.active_spec st.state_root
            (env.get_da_block_at_height resp.da_slot_height) ssc =
            some res ∧
          res.final_root ≠ resp.state_root))) ∧
    ((process_l2_block env st l2_height resp).1.isSome →
      (process_l2_block env st l2_height resp).2 = st) := by
  by_cases hprev : st.batch_hash ≠ resp.prev_hash
  · have hres : process_l2_block env st l2_height resp =
        (some "Previous hash mismatch", st) := by
      unfold process_l2_block
      rw [if_pos hprev]
    rw [hres]
    exact ⟨⟨fun _ => Or.inl hprev, fun _ => rfl⟩, fun _ => rfl⟩
  rcases hparse : env.parse_transactions resp with _ | ssc
  · have hres : process_l2_block env st l2_height resp =
        (some "Failed to parse transactions", st) := by
      unfold process_l2_block
      rw [if_neg hprev]
      simp only [hparse]
    rw [hres]
    exact ⟨⟨fun _ => Or.inr (Or.inl rfl), fun _ => rfl⟩, fun _ => rfl⟩
  rcases happly : env.apply_soft_confirmation env.active_spec st.state_root
      (env.get_da_block_at_height resp.da_slot_height) ssc with _ | res
  · have hres : process_l2_block env st l2_height resp =
        (some "Apply soft confirmation failed", st) := by
      unfold process_l2_block
      rw [if_neg hprev]
      simp only [hparse, happly]
    rw [hres]
    exact ⟨⟨fun _ => Or.inr (Or.inr (Or.inl ⟨ssc, rfl, happly⟩)),
      fun _ => rfl⟩, fun _ => rfl⟩
  by_cases hroot : res.final_root ≠ resp.state_root
  · have hres : process_l2_block env st l2_height resp =
        (some "Post state root mismatch", st) := by
      unfold process_l2_block
      rw [if_neg hprev]
      simp only [hparse, happly]
      rw [if_pos hroot]
    rw [hres]
    exact ⟨⟨fun _ => Or.inr (Or.inr (Or.inr ⟨ssc, res, rfl, happly,
      hroot⟩)), fun _ => rfl⟩, fun _ => rfl⟩
  · have hres : (process_l2_block env st l2_height resp).1 = none := by
      unfold process_l2_block
      rw [if_neg hprev]
      simp only [hparse, happly]
      rw [if_neg hroot]
    rw [hres]
    refine ⟨⟨fun habs => absurd habs (by simp), fun hrhs => ?_⟩,
      fun habs => absurd habs (by simp)⟩
    exfalso
    rcases hrhs with h | h | ⟨ssc', h1, h2⟩ | ⟨ssc', res', h1, h2, h3⟩
    · exact hprev h
    · cases h
    · cases h1
      rw [happly] at h2
      cases h2
    · cases h1
      rw [happly] at h2
      cases h2
      exact hroot h3

/-- Claim C4 witness: at a concrete prev-hash-mismatch input the error is
attributed to one of the four causes and the runner state is returned
unchanged. -/
theorem process_l2_block_error_iff_witness :
    (((5 : Hash) ≠ 6 ∨
      RunnerEnv.parse_transactions
        ⟨fun _ => ⟨1, 2⟩, fun _ => some 0, fun _ _ _ _ => some ⟨0, 0⟩,
          .Genesis⟩ ⟨9, 6, 1, 0⟩ = none ∨
      (∃ ssc, RunnerEnv.parse_transactions
          ⟨fun _ => ⟨1, 2⟩, fun _ => some 0, fun _ _ _ _ => some ⟨0, 0⟩,
            .Genesis⟩ ⟨9, 6, 1, 0⟩ = some ssc ∧
        RunnerEnv.apply_soft_confirmation
          ⟨fun _ => ⟨1, 2⟩, fun _ => some 0, fun _ _ _ _ => some ⟨0, 0⟩,
            .Genesis⟩ .Genesis 0 (⟨1, 2⟩ : L1Block) ssc = none) ∨
      (∃ ssc res, RunnerEnv.parse_transactions
          ⟨fun _ => ⟨1, 2⟩, fun _ => some 0, fun _ _ _ _ => some ⟨0, 0⟩,
            .Genesis⟩ ⟨9, 6, 1, 0⟩ = some ssc ∧
        RunnerEnv.apply_soft_confirmation
          ⟨fun _ => ⟨1, 2⟩, fun _ => some 0, fun _ _ _ _ => some ⟨0, 0⟩,
            .Genesis⟩ .Genesis 0 (⟨1, 2⟩ : L1Block) ssc = some res ∧
        res.final_root ≠ 0)) ∧
    (process_l2_block
      ⟨fun _ => ⟨1, 2⟩, fun _ => some 0, fun _ _ _ _ => some ⟨0, 0⟩,
        .Genesis⟩
      ⟨0, 5, [], [], [], [], []⟩ 1 ⟨9, 6, 1, 0⟩).2 =
      ⟨0, 5, [], [], [], [], []⟩) :=
  ⟨(process_l2_block_error_iff
      ⟨fun _ => ⟨1, 2⟩, fun _ => some 0, fun _ _ _ _ => some ⟨0, 0⟩,
        .Genesis⟩
      ⟨0, 5, [], [], [], [], []⟩ 1 ⟨9, 6, 1, 0⟩).1.mp rfl,
    (process_l2_block_error_iff
      ⟨fun _ => ⟨1, 2⟩, fun _ => some 0, fun _ _ _ _ => some ⟨0, 0⟩,
        .Genesis⟩
      ⟨0, 5, [], [], [], [], []⟩ 1 ⟨9, 6, 1, 0⟩).2 rfl⟩

/-! ## Claim C7 -/

/-- Claim C7: the begin hook executes system events in a soft confirmation
if and only if no L1 hash was ever recorded (the first-ever block), or the
DA slot hash differs from the last recorded L1 hash, or the deposit data is
non-empty; and the executed events are exactly: the
`BitcoinLightClientInitialize(da_height)`,
`BitcoinLightClientSetBlockInfo(da_hash, da_txs_commitment)`,
`BridgeInitialize` trio on the first-ever block, exactly the single
`BitcoinLightClientSetBlockInfo` on an L1 hash change, and one
`BridgeDeposit(params)` per deposit item appended after the other events. -/
theorem begin_hook_system_events (last_l1_hash : Option Hash)
    (info : HookSoftConfirmationInfo) :
    (executedSystemEvents last_l1_hash info = [] ↔
      (∃ h, last_l1_hash = some h ∧ h = info.da_slot_hash) ∧
        info.deposit_data = []) ∧
    (last_l1_hash = none →
      executedSystemEvents last_l1_hash info =
        .bitcoinLightClientInitialize info.da_slot_height ::
        .bitcoinLightClientSetBlockInfo info.da_slot_hash
          info.da_slot_txs_commitment ::
        .bridgeInitialize ::
        info.deposit_data.map .bridgeDeposit) ∧
    (∀ h, last_l1_hash = some h → h ≠ info.da_slot_hash →
      executedSystemEvents last_l1_hash info =
        .bitcoinLightClientSetBlockInfo info.da_slot_hash
          info.da_slot_txs_commitment ::
        info.deposit_data.map .bridgeDeposit) ∧
    (∀ h, last_l1_hash = some h → h = info.da_slot_hash →
      executedSystemEvents last_l1_hash info =
        info.deposit_data.map .bridgeDeposit) := by
  have hexec : executedSystemEvents last_l1_hash info =
      populateSystemEvents last_l1_hash info := by
    unfold executedSystemEvents
    split <;> rename_i hsplit
    · rw [List.isEmpty_iff] at hsplit
      exact hsplit.symm
    · rfl
  rcases last_l1_hash with _ | h0
  · refine ⟨?_, fun _ => ?_, ?_, ?_⟩
    · rw [hexec]
      unfold populateSystemEvents
      simp
    · rw [hexec]
      unfold populateSystemEvents
      rfl
    · intro h heq
      cases heq
    · intro h heq
      cases heq
  · by_cases hne : h0 ≠ info.da_slot_hash
    · refine ⟨?_, ?_, ?_, ?_⟩
      · rw [hexec]
        unfold populateSystemEvents
        simp [hne]
      · intro heq
        cases heq
      · intro h heq hne2
        rw [Option.some.injEq] at heq
        subst heq
        rw [hexec]
        unfold populateSystemEvents
        simp [hne]
      · intro h heq heq2
        rw [Option.some.injEq] at heq
        subst heq
        exact absurd heq2 hne
    · push_neg at hne
      refine ⟨?_, ?_, ?_, ?_⟩
      · rw [hexec]
        unfold populateSystemEvents
        simp [hne]
      · intro heq
        cases heq
      · intro h heq hne2
        rw [Option.some.injEq] at heq
        subst heq
        exact absurd hne hne2
      · intro h heq _
        rw [Option.some.injEq] at heq
        subst heq
        rw [hexec]
        unfold populateSystemEvents
        simp [hne]

/-- Claim C7 witness: with a recorded L1 hash equal to the DA slot hash and
no deposits, no system event is executed; with a differing hash, exactly the
set-block-info event (followed by the deposits) is executed. -/
theorem begin_hook_system_events_witness :
    executedSystemEvents (some 5)
      ⟨2, 5, 1, 42, 10, .Fork1, [], 0, 0⟩ = [] ∧
    executedSystemEvents (some 4)
      ⟨2, 5, 1, 42, 10, .Fork1, [77], 0, 0⟩ =
      [.bitcoinLightClientSetBlockInfo 5 42, .bridgeDeposit 77] :=
  ⟨(begin_hook_system_events (some 5)
      ⟨2, 5, 1, 42, 10, .Fork1, [], 0, 0⟩).1.mpr ⟨⟨5, rfl, rfl⟩, rfl⟩,
    (begin_hook_system_events (some 4)
      ⟨2, 5, 1, 42, 10, .Fork1, [77], 0, 0⟩).2.2.1 4 rfl (by decide)⟩

/-! ## Claim C8 -/

theorem ringAfter_eq (hashOf : Nat → Hash) (n k : Nat) :
    ringAfter hashOf n k =
      if k < n ∧ n ≤ k + 256 then some (hashOf k) else none := by
  induction n with
  | zero =>
    have h : ¬ (k < 0 ∧ 0 ≤ k + 256) := by omega
    simp [ringAfter, h]
  | succ n ih =>
    show beginHookRing hashOf (ringAfter hashOf n) (n + 1) k = _
    unfold beginHookRing mapInsert mapRemove
    simp only [Nat.add_sub_cancel]
    by_cases h256 : n + 1 > 256
    · rw [if_pos h256]
      by_cases hk1 : k = n + 1 - 257
      · rw [if_pos hk1, if_neg (by omega)]
      · rw [if_neg hk1]
        by_cases hk2 : k = n
        · subst hk2
          rw [if_pos rfl, if_pos (by omega)]
        · rw [if_neg hk2, ih]
          split_ifs with h1 h2 h3 <;> first | rfl | (exfalso; omega)
    · rw [if_neg h256]
      by_cases hk2 : k = n
      · subst hk2
        rw [if_pos rfl, if_pos (by omega)]
      · rw [if_neg hk2, ih]
        split_ifs with h1 h2 h3 <;> first | rfl | (exfalso; omega)

/-- Claim C8: after the begin hooks of pending blocks `1 .. n` (the begin
hook of pending block `n` inserts the parent `n - 1` and, once `n` exceeds
256, removes the entry for `n - 257`), the `latest_block_hashes` map
contains exactly the hashes of the last 256 blocks — it holds block `i`'s
hash iff `n - 256 ≤ i < n` — and a `BLOCKHASH` query for block number `i`
returns the stored hash on that window and zero otherwise (`head = n`, the
pending block whose execution queries the map). -/
theorem latest_block_hashes_ring (hashOf : Nat → Hash) (n i : Nat) :
    (ringAfter hashOf n i = some (hashOf i) ↔ (i < n ∧ n ≤ i + 256)) ∧
    (¬ (i < n ∧ n ≤ i + 256) → ringAfter hashOf n i = none) ∧
    blockHashQuery (ringAfter hashOf n) i =
      if i < n ∧ n ≤ i + 256 then hashOf i else 0 := by
  refine ⟨⟨?_, ?_⟩, ?_, ?_⟩
  · intro h
    by_contra hc
    rw [ringAfter_eq, if_neg hc] at h
    cases h
  · intro h
    rw [ringAfter_eq, if_pos h]
  · intro h
    rw [ringAfter_eq, if_neg h]
  · rw [blockHashQuery, ringAfter_eq]
    split_ifs <;> rfl

/-- Claim C8 witness: after 300 begin hooks the map answers for block 200
(inside the last-256 window of head 300) and not for block 43 (evicted). -/
theorem latest_block_hashes_ring_witness :
    (¬ ((43 : Nat) < 300 ∧ (300 : Nat) ≤ 43 + 256) →
      ringAfter (fun k => k + 1000) 300 43 = none) ∧
    blockHashQuery (ringAfter (fun k => k + 1000) 300) 200 =
      if (200 : Nat) < 300 ∧ (300 : Nat) ≤ 200 + 256 then 1200 else 0 :=
  ⟨(latest_block_hashes_ring (fun k => k + 1000) 300 43).2.1,
    (latest_block_hashes_ring (fun k => k + 1000) 300 200).2.2⟩

/-! ## Claim C9

The claim gives the post-Fork1 compressed size as
`ceil(raw × BROTLI_COMPRESSION_PERCENTAGE / 100)`.  The repository's own
test (`call_tests.rs:1823-1827`) asserts
`tx1_diff_size * BROTLI_COMPRESSION_PERCENTAGE as u64 / 100 == tx2_diff_size`
with `140 → 46`: Rust `u64` division takes the floor, and
`ceil(140 × 33 / 100) = 47 ≠ 46`. -/

/-- Claim C9 counterexample: at raw diff size 140 under `Fork1` with fee
rate 1 and overhead 0, the modelled executor (pinned by the repository's
test) credits `46 = ⌊140 × 33 / 100⌋` to the L1-fee vault, while the claim's
formula gives `⌈140 × 33 / 100⌉ = 47`. -/
theorem l1_fee_ceil_counterexample :
    applyL1FeeAfterEvm 0 .Fork1 1 140 ⟨1000, 0, 0, 0⟩ =
      .ok (⟨954, 0, 0, 46⟩, 46) ∧
    (140 * BROTLI_COMPRESSION_PERCENTAGE + 99) / 100 = 47 ∧
    (46 : Nat) ≠ 47 :=
  ⟨rfl, by decide, by decide⟩

/-- Claim C9 (amended): for every user transaction, the amount debited from
the sender after EVM execution equals the amount credited to the L1-fee
vault and equals `compressed_size × l1_fee_rate + L1_FEE_OVERHEAD`, where
`compressed_size` is the raw diff size before `Fork1` and
`⌊raw × BROTLI_COMPRESSION_PERCENTAGE / 100⌋` (floor, per the repository's
test) from `Fork1` on; the base-fee-vault and coinbase balances are not
touched by this step; and if the sender's remaining balance cannot cover
the fee, the transaction fails with `NotEnoughFundsForL1Fee`. -/
theorem applyL1FeeAfterEvm_spec (overhead : Nat) (spec : SpecId)
    (rate raw : Nat) (bal : Balances) :
    (∀ bal' d, applyL1FeeAfterEvm overhead spec rate raw bal =
        .ok (bal', d) →
      bal'.sender + (compressedDiffSize spec raw * rate + overhead) =
        bal.sender ∧
      bal'.l1_fee_vault =
        bal.l1_fee_vault + (compressedDiffSize spec raw * rate + overhead) ∧
      bal'.base_fee_vault = bal.base_fee_vault ∧
      bal'.coinbase = bal.coinbase) ∧
    (bal.sender < compressedDiffSize spec raw * rate + overhead →
      applyL1FeeAfterEvm overhead spec rate raw bal =
        .error .NotEnoughFundsForL1Fee) ∧
    compressedDiffSize .Genesis raw = raw ∧
    compressedDiffSize .Fork1 raw =
      raw * BROTLI_COMPRESSION_PERCENTAGE / 100 := by
  refine ⟨?_, ?_, rfl, rfl⟩
  · intro bal' d hok
    unfold applyL1FeeAfterEvm at hok
    split at hok
    · cases hok
    · rename_i hge
      cases hok
      refine ⟨?_, rfl, rfl, rfl⟩
      show bal.sender - (compressedDiffSize spec raw * rate + overhead) +
        (compressedDiffSize spec raw * rate + overhead) = bal.sender
      omega
  · intro hlt
    unfold applyL1FeeAfterEvm
    rw [if_pos hlt]

/-- Claim C9 (amended) witness: a concrete `Fork1` transaction with raw diff
size 140, fee rate 2 and overhead 3 debits and credits `46 × 2 + 3 = 95`. -/
theorem applyL1FeeAfterEvm_spec_witness :
    (905 : Nat) + (compressedDiffSize .Fork1 140 * 2 + 3) = 1000 ∧
    (102 : Nat) = 7 + (compressedDiffSize .Fork1 140 * 2 + 3) ∧
    (5 : Nat) = 5 ∧ (6 : Nat) = 6 :=
  (applyL1FeeAfterEvm_spec 3 .Fork1 2 140 ⟨1000, 5, 6, 7⟩).1
    ⟨905, 5, 6, 102⟩ 46 rfl

/-! ## Claim C10

The claim says the receipt's `l1_diff_size` is the unreduced byte count.
The repository's test (`call_tests.rs:1829-1835`) asserts the stored values
`[255, 561, 1019, 561, 140, 46]`, where the final `46` is the post-discount
(compressed) size of a transaction whose raw size is `140` (the same
transfer measured `140` under `Genesis`): the receipt stores the reduced
size. -/

/-- Claim C10 counterexample: under `Fork1` the receipt records `46`, the
post-discount size, not the unreduced raw size `140`. -/
theorem l1_diff_size_counterexample :
    applyL1FeeAfterEvm 0 .Fork1 1 140 ⟨500, 1, 2, 3⟩ =
      .ok (⟨454, 1, 2, 49⟩, 46) ∧
    (46 : Nat) ≠ 140 :=
  ⟨rfl, by decide⟩

/-- Claim C10 (amended): the `l1_diff_size` stored on a transaction's
receipt equals the DA-footprint byte count after the fork-gated compression
discount — the raw serialized diff size before `Fork1` and
`⌊raw × BROTLI_COMPRESSION_PERCENTAGE / 100⌋` from `Fork1` on. -/
theorem receipt_l1_diff_size_is_compressed (overhead : Nat) (spec : SpecId)
    (rate raw : Nat) (bal : Balances) :
    ∀ bal' d, applyL1FeeAfterEvm overhead spec rate raw bal = .ok (bal', d) →
      d = compressedDiffSize spec raw ∧
      (spec = .Genesis → d = raw) := by
  intro bal' d hok
  unfold applyL1FeeAfterEvm at hok
  split at hok
  · cases hok
  · cases hok
    exact ⟨rfl, fun hspec => by rw [hspec]; rfl⟩

/-- Claim C10 (amended) witness: the concrete `Genesis` receipt records the
raw size 140 and the concrete `Fork1` receipt records the compressed size. -/
theorem receipt_l1_diff_size_is_compressed_witness :
    ((140 : Nat) = compressedDiffSize .Genesis 140 ∧
      (SpecId.Genesis = .Genesis → (140 : Nat) = 140)) ∧
    ((46 : Nat) = compressedDiffSize .Fork1 140 ∧
      (SpecId.Fork1 = .Genesis → (46 : Nat) = 140)) :=
  ⟨receipt_l1_diff_size_is_compressed 0 .Genesis 1 140 ⟨500, 0, 0, 0⟩
      ⟨360, 0, 0, 140⟩ 140 rfl,
    receipt_l1_diff_size_is_compressed 0 .Fork1 1 140 ⟨500, 0, 0, 0⟩
      ⟨454, 0, 0, 46⟩ 46 rfl⟩

/-! ## Claim C5 -/

theorem loopStep_allHeights_eq (env : HandlerEnv) {s s' : LoopState}
    (h : LoopStep env s s') : s'.allHeights = s.allHeights := by
  cases h with
  | receive b rest s hinc =>
    simp [LoopState.allHeights, hinc]
  | tickDefer b rest s res hpend hproc hcomp =>
    rfl
  | tickComplete b rest s res hpend hproc hcomp =>
    simp [LoopState.allHeights, hpend]

theorem loopReachable_allHeights_eq (env : HandlerEnv) {s s' : LoopState}
    (h : LoopReachable env s s') : s'.allHeights = s.allHeights := by
  induction h with
  | refl => rfl
  | tail _ hstep ih => rw [loopStep_allHeights_eq env hstep, ih]

theorem syncEmissions_sorted (start : Nat) (finals : List Nat) :
    (syncEmissions start finals).Pairwise (· < ·) ∧
    (∀ x ∈ syncEmissions start finals, start < x) := by
  induction finals generalizing start with
  | nil => simp [syncEmissions]
  | cons n rest ih =>
    unfold syncEmissions
    rw [List.pairwise_append]
    have hrange : (List.range' (start + 1) (n - start)).Pairwise (· < ·) := by
      have := List.pairwise_lt_range' (start + 1) (n - start) 1
      simpa using this
    have hmem : ∀ x ∈ List.range' (start + 1) (n - start),
        start + 1 ≤ x ∧ x < start + 1 + (n - start) := by
      intro x hx
      exact List.mem_range'_1.mp hx
    refine ⟨⟨hrange, (ih (max start n)).1, ?_⟩, ?_⟩
    · intro x hx y hy
      have h1 := hmem x hx
      have h2 := (ih (max start n)).2 y hy
      omega
    · intro x hx
      rcases List.mem_append.mp hx with hx | hx
      · have := hmem x hx
        omega
      · have := (ih (max start n)).2 x hx
        omega

theorem processProofsLoop_trace (env : HandlerEnv) (h : Nat)
    (ps : List Proof) :
    ∀ db db' tr done, processProofsLoop env h db ps = .ok (db', tr, done) →
      ∀ e ∈ tr, e.isProof = true := by
  induction ps with
  | nil =>
    intro db db' tr done heq e he
    unfold processProofsLoop at heq
    cases heq
    simp at he
  | cons p ps ih =>
    intro db db' tr done heq e he
    unfold processProofsLoop at heq
    rcases hz : process_zk_proof env db h p with (e1 | db1) | m <;>
      simp only [hz] at heq
    · cases e1 with
      | MissingL2 msg s_ e_ =>
        cases heq
        rcases List.mem_cons.mp he with rfl | hmem
        · rfl
        · simp at hmem
      | Error msg =>
        rcases hrec : processProofsLoop env h db ps with
            (⟨db2, tr2, d2⟩) | m2 <;>
          simp only [hrec] at heq
        · cases heq
          rcases List.mem_cons.mp he with rfl | hmem
          · rfl
          · exact ih _ _ _ _ hrec e hmem
        · cases heq
    · rcases hrec : processProofsLoop env h db1 ps with
          (⟨db2, tr2, d2⟩) | m2 <;>
        simp only [hrec] at heq
      · cases heq
        rcases List.mem_cons.mp he with rfl | hmem
        · rfl
        · exact ih _ _ _ _ hrec e hmem
      · cases heq
    · cases heq

theorem processCommitmentsLoop_trace (hp : Hash → Hash → Hash) (h : Nat)
    (scs : List SequencerCommitment) :
    ∀ db db' tr done, processCommitmentsLoop hp h db scs = (db', tr, done) →
      ∀ e ∈ tr, e.isProof = false := by
  induction scs with
  | nil =>
    intro db db' tr done heq e he
    unfold processCommitmentsLoop at heq
    cases heq
    simp at he
  | cons sc scs ih =>
    intro db db' tr done heq e he
    unfold processCommitmentsLoop at heq
    rcases hz : process_sequencer_commitment hp db h sc with e1 | db1
    · cases e1 with
      | MissingL2 msg s_ e_ =>
        simp only [hz] at heq
        cases heq
        rcases List.mem_cons.mp he with rfl | hmem
        · rfl
        · simp at hmem
      | Error msg =>
        simp only [hz] at heq
        rcases hrec : processCommitmentsLoop hp h db scs with ⟨db2, tr2, d2⟩
        simp only [hrec] at heq
        cases heq
        rcases List.mem_cons.mp he with rfl | hmem
        · rfl
        · exact ih _ _ _ _ hrec e hmem
    · simp only [hz] at heq
      rcases hrec : processCommitmentsLoop hp h db1 scs with ⟨db2, tr2, d2⟩
      simp only [hrec] at heq
      cases heq
      rcases List.mem_cons.mp he with rfl | hmem
      · rfl
      · exact ih _ _ _ _ hrec e hmem

theorem process_l1_block_trace (env : HandlerEnv) (db : Ledger)
    (inp : BlockInput) (res : BlockResult)
    (h : process_l1_block env db inp = .ok res) :
    ∃ tp tc, res.trace = tp ++ tc ∧ (∀ e ∈ tp, e.isProof = true) ∧
      (∀ e ∈ tc, e.isProof = false) := by
  unfold process_l1_block at h
  split at h
  · cases h
    exact ⟨[], [], rfl, by simp, by simp⟩
  · rcases hp : processProofsLoop env inp.block.height
        (set_l1_height_of_l1_hash db inp.block.hash inp.block.height)
        inp.zk_proofs with (⟨db1, tr1, d1⟩) | m <;>
      simp only [hp] at h
    · cases d1
      · cases h
        exact ⟨tr1, [], by simp,
          processProofsLoop_trace env inp.block.height inp.zk_proofs _ _ _ _
            hp, by simp⟩
      · rcases hc : processCommitmentsLoop env.hp inp.block.height db1
            inp.sequencer_commitments with ⟨db2, tr2, d2⟩
        simp only [hc] at h
        cases d2 <;> cases h <;>
          exact ⟨tr1, tr2, rfl,
            processProofsLoop_trace env inp.block.height inp.zk_proofs _ _ _ _
              hp,
            processCommitmentsLoop_trace env.hp inp.block.height
              inp.sequencer_commitments _ _ _ _ hc⟩
    · cases h

/-- Claim C5: along any run of the handler loop started with an empty
pending queue and the L1 blocks delivered by the sync worker (which forwards
the heights `cur+1 ..= last_finalized` round by round), the sequence of
fully processed (popped) L1 heights is strictly increasing — hence no L1
height is fully processed twice — and within the processing of any single L1
block every zk proof is attempted before any sequencer commitment (the
trace is a block of proof events followed by a block of commitment
events). -/
theorem l1_blocks_processed_in_order (env : HandlerEnv) (s0 s : LoopState)
    (start : Nat) (finals : List Nat)
    (hinc : s0.incoming.map (·.block.height) = syncEmissions start finals)
    (hpend : s0.pending = []) (hproc : s0.processedHeights = [])
    (hreach : LoopReachable env s0 s) :
    s.processedHeights.Pairwise (· < ·) ∧
    s.processedHeights.Nodup ∧
    (∀ db inp res, process_l1_block env db inp = .ok res →
      ∃ tp tc, res.trace = tp ++ tc ∧ (∀ e ∈ tp, e.isProof = true) ∧
        (∀ e ∈ tc, e.isProof = false)) := by
  have hall : s.allHeights = s0.allHeights :=
    loopReachable_allHeights_eq env hreach
  have h0 : s0.allHeights = syncEmissions start finals := by
    simp [LoopState.allHeights, hpend, hproc, hinc]
  have hpw : s.allHeights.Pairwise (· < ·) := by
    rw [hall, h0]
    exact (syncEmissions_sorted start finals).1
  have hprefix : s.processedHeights <+: s.allHeights := by
    unfold LoopState.allHeights
    rw [List.append_assoc]
    exact List.prefix_append _ _
  have hpp : s.processedHeights.Pairwise (· < ·) :=
    hpw.sublist hprefix.sublist
  exact ⟨hpp, hpp.imp (fun hlt => Nat.ne_of_lt hlt),
    fun db inp res h => process_l1_block_trace env db inp res h⟩

/-- Claim C5 witness: a concrete two-step run (receive the L1 block at
height 1, then a completing tick) ends with the strictly increasing,
duplicate-free processed list `[1]`. -/
theorem l1_blocks_processed_in_order_witness :
    (LoopState.processedHeights
      ⟨[], [1],
        set_last_scanned_l1_height
          (set_l1_height_of_l1_hash Ledger.empty 9 1) 1, []⟩).Pairwise
      (· < ·) ∧
    (LoopState.processedHeights
      ⟨[], [1],
        set_last_scanned_l1_height
          (set_l1_height_of_l1_hash Ledger.empty 9 1) 1, []⟩).Nodup :=
  ⟨(l1_blocks_processed_in_order
      ⟨fun a b => a + b, 1, 2, fun _ => none, fun _ => none,
        fun _ _ => false, fun _ => .Genesis⟩
      ⟨[], [], Ledger.empty, [⟨⟨1, 9⟩, [], []⟩]⟩ _ 0 [1] rfl rfl rfl
      (Relation.ReflTransGen.tail
        (Relation.ReflTransGen.tail .refl
          (.receive ⟨⟨1, 9⟩, [], []⟩ [] _ rfl))
        (.tickComplete ⟨⟨1, 9⟩, [], []⟩ [] _
          ⟨set_last_scanned_l1_height
            (set_l1_height_of_l1_hash Ledger.empty 9 1) 1, [], true⟩
          rfl rfl rfl))).1,
    (l1_blocks_processed_in_order
      ⟨fun a b => a + b, 1, 2, fun _ => none, fun _ => none,
        fun _ _ => false, fun _ => .Genesis⟩
      ⟨[], [], Ledger.empty, [⟨⟨1, 9⟩, [], []⟩]⟩ _ 0 [1] rfl rfl rfl
      (Relation.ReflTransGen.tail
        (Relation.ReflTransGen.tail .refl
          (.receive ⟨⟨1, 9⟩, [], []⟩ [] _ rfl))
        (.tickComplete ⟨⟨1, 9⟩, [], []⟩ [] _
          ⟨set_last_scanned_l1_height
            (set_l1_height_of_l1_hash Ledger.empty 9 1) 1, [], true⟩
          rfl rfl rfl))).2.1⟩

end Citrea
